import Mathlib

/-!
Shallow embedding of the `btree` Go package (rob-ng/btree, file `btree.go`).

Go pointers to `node` values become indices (`Nat`) into an arena
(`St.nodes`), so the mutable pointer graph — including the `parent`
back-references — is modelled exactly.  Items are modelled as `Int` with the
standard strict order standing for the `Less` capability of the `Item`
interface.  Every Go statement that can panic (slice index out of range, nil
pointer dereference) is modelled by an `Except` error, and every Go loop or
recursion runs on explicit fuel, so all definitions are executable.
-/

namespace Btree

/-- Runtime outcome of a Go slip: a panic (index out of range or nil pointer
dereference) or fuel exhaustion of the interpreter (never hit on the runs
evaluated in this file). -/
inductive Err where
  | panic : Err
  | fuel : Err
deriving DecidableEq, Repr

/-- Arena index standing for a `*node` pointer. -/
abbrev NodeId := Nat

/-- The Go struct `node`: ordered items, child pointers, parent back-pointer. -/
structure node where
  items : List Int
  children : List NodeId
  parent : Option NodeId
deriving DecidableEq, Repr

/-- Whole-machine state: the `BTree` struct (`order`, `root`) plus the arena
holding every allocated node. -/
structure St where
  order : Nat
  root : NodeId
  nodes : List node
deriving DecidableEq, Repr

/-- Dereference a node pointer; a dangling id is a nil-dereference panic. -/
def getNode (s : St) (nid : NodeId) : Except Err node :=
  match s.nodes.get? nid with
  | some n => .ok n
  | none => .error .panic

/-- Write back a node through its pointer. -/
def setNode (s : St) (nid : NodeId) (n : node) : St :=
  { s with nodes := s.nodes.set nid n }

/-- Allocate a fresh node (Go `newNode`) and return its pointer. -/
def allocNode (s : St) (n : node) : St × NodeId :=
  ({ s with nodes := s.nodes ++ [n] }, s.nodes.length)

/-- Go `sort.Search` loop body: binary search for the smallest index in
`[i, j)` at which `f` is true, assuming `f` monotone.  Fuel `j - i + 1`
always suffices. -/
def sortSearchLoop (f : Nat → Bool) : Nat → Nat → Nat → Nat
  | 0, i, _ => i
  | fuel + 1, i, j =>
    if i < j then
      let h := (i + j) / 2
      if f h then sortSearchLoop f fuel i h else sortSearchLoop f fuel (h + 1) j
    else i

/-- Go `sort.Search(n, f)`. -/
def sortSearch (n : Nat) (f : Nat → Bool) : Nat :=
  sortSearchLoop f (n + 1) 0 n

/-- Go `items.find`: index of the first element greater than `it`
(`sort.Search` over `it.Less(items[i])`). -/
def find (its : List Int) (it : Int) : Nat :=
  sortSearch its.length (fun i => it < its.getD i 0)

/-- Go `items.match`: does `items[index]` exist and compare equal to `item`
under the derived equality of the strict order? -/
def matchAt (its : List Int) (item : Int) (index : Int) : Bool :=
  if 0 ≤ index ∧ index < (its.length : Int) then
    let x := its.getD index.toNat 0
    decide (¬(item < x ∨ x < item))
  else false

/-- Go `items.insert`: ordered insertion at position `find`. -/
def itemsInsert (its : List Int) (it : Int) : List Int :=
  let i := find its it
  its.take i ++ [it] ++ its.drop i

/-- Read `l[i]` with Go bounds semantics: out of range is a panic. -/
def idxI (l : List α) (i : Int) : Except Err α :=
  if h : 0 ≤ i ∧ i.toNat < l.length then .ok (l.get ⟨i.toNat, h.2⟩)
  else .error .panic

/-- Write `l[i] = x` with Go bounds semantics. -/
def setI (l : List α) (i : Int) (x : α) : Except Err (List α) :=
  if 0 ≤ i ∧ i.toNat < l.length then .ok (l.set i.toNat x)
  else .error .panic

/-- Go slice `delete(index)` (`copy` left over the gap, then shrink): panics
outside `[0, len)`. -/
def delI (l : List α) (i : Int) : Except Err (List α) :=
  if 0 ≤ i ∧ i.toNat < l.length then .ok (l.take i.toNat ++ l.drop (i.toNat + 1))
  else .error .panic

/-- Go `children.indexOf`: linear scan, `-1` when absent. -/
def indexOf (l : List NodeId) (x : NodeId) : Int :=
  match l.findIdx? (fun y => y == x) with
  | some i => (i : Int)
  | none => -1

/-- Go `node.nthChildOfParent`: position of this node among its parent's
children, found by linear scan when the node has no items, otherwise by
binary search on the parent's separators. -/
def nthChildOfParent (s : St) (nid : NodeId) : Except Err Int := do
  let n ← getNode s nid
  match n.parent with
  | none => return -1
  | some pid => do
    let p ← getNode s pid
    if n.items.length = 0 then
      return indexOf p.children nid
    else
      return (find p.items (n.items.getD 0 0) : Int)

/-- Reparent every node in `ids` to `pid` (the Go `for … c.parent = …` loops). -/
def reparentAll (s : St) (ids : List NodeId) (pid : NodeId) : Except Err St :=
  match ids with
  | [] => .ok s
  | c :: rest => do
    let cn ← getNode s c
    reparentAll (setNode s c { cn with parent := some pid }) rest pid

/-- Descent loop shared by `BTree.search`: locate the containing node and item
index of `item`, or report absence. -/
def searchLoop : Nat → St → Int → NodeId → Except Err (Option (NodeId × Nat))
  | 0, _, _, _ => .error .fuel
  | fuel + 1, s, item, curr => do
    let n ← getNode s curr
    let i := find n.items item
    if matchAt n.items item ((i : Int) - 1) then
      return some (curr, i - 1)
    else if i ≥ n.children.length then
      return none
    else
      searchLoop fuel s item (n.children.getD i 0)

/-- Go `BTree.search`: descend from the root. -/
def search (fuel : Nat) (s : St) (item : Int) : Except Err (Option (NodeId × Nat)) :=
  searchLoop fuel s item s.root

/-- Go `BTree.Search`: public point lookup, `none` is the not-found error. -/
def Search (fuel : Nat) (s : St) (item : Int) : Except Err (Option Int) := do
  match ← search fuel s item with
  | none => return none
  | some (nid, i) => do
    let n ← getNode s nid
    let x ← idxI n.items (i : Int)
    return some x

/-- Descent loop of Go `BTree.Insert`: stop with `none` on an equal item
(silent no-op), else with the leaf to split. -/
def insertLoop : Nat → St → Int → NodeId → Except Err (Option NodeId)
  | 0, _, _, _ => .error .fuel
  | fuel + 1, s, item, curr => do
    let n ← getNode s curr
    let i := find n.items item
    if matchAt n.items item ((i : Int) - 1) then
      return none
    else if i ≥ n.children.length then
      return some curr
    else
      insertLoop fuel s item (n.children.getD i 0)

/-- Go `BTree.split`: ordered insert into the node, then recursive upward
split while over-full. -/
def split : Nat → St → NodeId → Int → Except Err St
  | 0, _, _, _ => .error .fuel
  | fuel + 1, s, nid, item => do
    let n ← getNode s nid
    let newItems := itemsInsert n.items item
    let s := setNode s nid { n with items := newItems }
    if newItems.length < s.order then
      return s
    else
      let mid := newItems.length / 2
      let midItem ← idxI newItems (mid : Int)
      let (s, rightId) := allocNode s { items := newItems.drop (mid + 1), children := [], parent := n.parent }
      let n1 ← getNode s nid
      let s := setNode s nid { n1 with items := n1.items.take mid }
      let n2 ← getNode s nid
      let s ←
        if n2.children.length > 0 then do
          let moved := n2.children.drop (mid + 1)
          let s := setNode s nid { n2 with children := n2.children.take (mid + 1) }
          let r ← getNode s rightId
          let s := setNode s rightId { r with children := moved }
          reparentAll s moved rightId
        else
          pure s
      match n2.parent with
      | none => do
        let (s, newRootId) := allocNode s { items := [midItem], children := [nid, rightId], parent := none }
        let n3 ← getNode s nid
        let s := setNode s nid { n3 with parent := some newRootId }
        let r ← getNode s rightId
        let s := setNode s rightId { r with parent := some newRootId }
        return { s with root := newRootId }
      | some pid => do
        let p ← getNode s pid
        let i := find p.items item
        if i + 1 ≤ p.children.length then
          let s := setNode s pid { p with children := p.children.take (i + 1) ++ [rightId] ++ p.children.drop (i + 1) }
          split fuel s pid midItem
        else
          .error .panic

/-- Go `BTree.Insert`: descend, no-op on duplicate, else split at the leaf. -/
def Insert (fuel : Nat) (s : St) (item : Int) : Except Err St := do
  match ← insertLoop fuel s item s.root with
  | none => return s
  | some leaf => split fuel s leaf item

/-- Go `BTree.max`: rightmost descendant leaf. -/
def maxNode : Nat → St → NodeId → Except Err NodeId
  | 0, _, _ => .error .fuel
  | fuel + 1, s, curr => do
    let n ← getNode s curr
    if n.children.length = 0 then return curr
    else maxNode fuel s (n.children.getD (n.children.length - 1) 0)

/-- Go `BTree.min`: leftmost descendant leaf. -/
def minNode : Nat → St → NodeId → Except Err NodeId
  | 0, _, _ => .error .fuel
  | fuel + 1, s, curr => do
    let n ← getNode s curr
    if n.children.length = 0 then return curr
    else minNode fuel s (n.children.getD 0 0)

/-- Left rotation arm of `rebalance` (right sibling richer than `minItems`). -/
def rotateLeft (s : St) (nid pid sibId : NodeId) (rSepPos : Int) : Except Err St := do
  let n ← getNode s nid
  let p ← getNode s pid
  let sepItem ← idxI p.items rSepPos
  let s := setNode s nid { n with items := n.items ++ [sepItem] }
  let sib ← getNode s sibId
  let sib0 ← idxI sib.items 0
  let p ← getNode s pid
  let pItems ← setI p.items rSepPos sib0
  let s := setNode s pid { p with items := pItems }
  let sib ← getNode s sibId
  let sItems ← delI sib.items 0
  let s := setNode s sibId { sib with items := sItems }
  let sib ← getNode s sibId
  if sib.children.length > 0 then do
    let c0 ← idxI sib.children 0
    let cn ← getNode s c0
    let s := setNode s c0 { cn with parent := some nid }
    let n ← getNode s nid
    let s := setNode s nid { n with children := n.children ++ [c0] }
    let sib ← getNode s sibId
    let sChildren ← delI sib.children 0
    return setNode s sibId { sib with children := sChildren }
  else
    return s

/-- Right rotation arm of `rebalance` (left sibling richer than `minItems`). -/
def rotateRight (s : St) (nid pid sibId : NodeId) (lSepPos : Int) : Except Err St := do
  let n ← getNode s nid
  let p ← getNode s pid
  let sepItem ← idxI p.items lSepPos
  let s := setNode s nid { n with items := [sepItem] ++ n.items }
  let sib ← getNode s sibId
  let sLast ← idxI sib.items ((sib.items.length : Int) - 1)
  let p ← getNode s pid
  let pItems ← setI p.items lSepPos sLast
  let s := setNode s pid { p with items := pItems }
  let sib ← getNode s sibId
  let sItems ← delI sib.items ((sib.items.length : Int) - 1)
  let s := setNode s sibId { sib with items := sItems }
  let sib ← getNode s sibId
  if sib.children.length > 0 then do
    let lastChild ← idxI sib.children ((sib.children.length : Int) - 1)
    let cn ← getNode s lastChild
    let s := setNode s lastChild { cn with parent := some nid }
    let n ← getNode s nid
    let s := setNode s nid { n with children := [lastChild] ++ n.children }
    let sib ← getNode s sibId
    let sChildren ← delI sib.children ((sib.children.length : Int) - 1)
    return setNode s sibId { sib with children := sChildren }
  else
    return s

/-- Go `BTree.rebalance`: rotate from a richer sibling, else merge with the
separator, contracting the root or cascading upward as needed. -/
def rebalance : Nat → St → NodeId → Nat → Except Err St
  | 0, _, _, _ => .error .fuel
  | fuel + 1, s, nid, minItems => do
    let n ← getNode s nid
    match n.parent with
    | none => return s
    | some pid => do
      let ptrIndex ← nthChildOfParent s nid
      let lSepPos := ptrIndex - 1
      let rSepPos := ptrIndex
      let p ← getNode s pid
      let leftSib : Option NodeId ←
        if ptrIndex > 0 then do
          let v ← idxI p.children (ptrIndex - 1)
          pure (some v)
        else pure none
      let rightSib : Option NodeId ←
        if ptrIndex < (p.children.length : Int) - 1 then do
          let v ← idxI p.children (ptrIndex + 1)
          pure (some v)
        else pure none
      let tryLeft : Option NodeId ←
        match rightSib with
        | some sibId => do
          let sib ← getNode s sibId
          if sib.items.length > minItems then pure (some sibId) else pure none
        | none => pure none
      match tryLeft with
      | some sibId => rotateLeft s nid pid sibId rSepPos
      | none => do
        let tryRight : Option NodeId ←
          match leftSib with
          | some sibId => do
            let sib ← getNode s sibId
            if sib.items.length > minItems then pure (some sibId) else pure none
          | none => pure none
        match tryRight with
        | some sibId => rotateRight s nid pid sibId lSepPos
        | none => do
          let (leftId, rightOpt, sepPos, rightPos) :=
            match leftSib with
            | some l => (l, some nid, lSepPos, ptrIndex)
            | none => (nid, rightSib, rSepPos, ptrIndex + 1)
          let p ← getNode s pid
          let sepItem ← idxI p.items sepPos
          let rightId ← match rightOpt with
            | some r => pure r
            | none => (.error .panic : Except Err NodeId)
          let left ← getNode s leftId
          let s := setNode s leftId { left with items := left.items ++ [sepItem] }
          let left ← getNode s leftId
          let right ← getNode s rightId
          let s := setNode s leftId { left with items := left.items ++ right.items }
          let right ← getNode s rightId
          let s ← reparentAll s right.children leftId
          let left ← getNode s leftId
          let right ← getNode s rightId
          let s := setNode s leftId { left with children := left.children ++ right.children }
          let p ← getNode s pid
          let pItems ← delI p.items sepPos
          let s := setNode s pid { p with items := pItems }
          let p ← getNode s pid
          let pChildren ← delI p.children rightPos
          let s := setNode s pid { p with children := pChildren }
          let p ← getNode s pid
          if p.parent = none ∧ p.items.length = 0 then do
            let right ← getNode s rightId
            let s := setNode s rightId { right with parent := some leftId }
            let left ← getNode s leftId
            let s := setNode s leftId { left with parent := none }
            return { s with root := leftId }
          else do
            let minItems2 := (s.order + 1) / 2 - 1
            let p ← getNode s pid
            if p.items.length < minItems2 then
              rebalance fuel s pid minItems2
            else
              return s

/-- Go `BTree.Delete`: remove the item (swapping in the in-order predecessor
for an internal container), then rebalance around the affected leaf if it
emptied. -/
def Delete (fuel : Nat) (s : St) (item : Int) : Except Err St := do
  match ← search fuel s item with
  | none => return s
  | some (delId, i) => do
    let del ← getNode s delId
    let sAff ←
      if del.children.length = 0 then do
        let items2 ← delI del.items (i : Int)
        pure (setNode s delId { del with items := items2 }, delId)
      else do
        let ci ← idxI del.children (i : Int)
        let maxId ← maxNode fuel s ci
        let maxN ← getNode s maxId
        if maxN.items.length > 0 then do
          let lastIt ← idxI maxN.items ((maxN.items.length : Int) - 1)
          let del2 ← getNode s delId
          let items2 ← setI del2.items (i : Int) lastIt
          let s := setNode s delId { del2 with items := items2 }
          let maxN2 ← getNode s maxId
          let items3 ← delI maxN2.items ((maxN2.items.length : Int) - 1)
          pure (setNode s maxId { maxN2 with items := items3 }, maxId)
        else
          pure (s, maxId)
    let s := sAff.1
    let affected := sAff.2
    let aff ← getNode s affected
    if aff.items.length = 0 ∧ aff.parent ≠ none then
      rebalance fuel s affected 1
    else
      return s

/-- Forward direction constant of the Go iterator. -/
def forward : Int := 1

/-- Reverse direction constant of the Go iterator. -/
def reverseDir : Int := -1

/-- The Go `Iterator` struct. -/
structure Iterator where
  itemIndex : Int
  childIndex : Int
  dir : Int
  curr : Option NodeId
deriving DecidableEq, Repr

/-- Go `BTree.NewIterator`: forward cursor starting at the leftmost leaf. -/
def NewIterator (fuel : Nat) (s : St) : Except Err Iterator := do
  let c ← minNode fuel s s.root
  return { itemIndex := 0, childIndex := 0, dir := forward, curr := some c }

/-- Go `BTree.NewReverseIterator`: reverse cursor starting at the rightmost
leaf. -/
def NewReverseIterator (fuel : Nat) (s : St) : Except Err Iterator := do
  let c ← maxNode fuel s s.root
  let n ← getNode s c
  return { itemIndex := (n.items.length : Int) - 1,
           childIndex := (n.children.length : Int) - 1,
           dir := reverseDir, curr := some c }

/-- Go `Iterator.HasNext`. -/
def HasNext (s : St) (it : Iterator) : Bool :=
  match it.curr with
  | none => false
  | some c =>
    match s.nodes.get? c with
    | some n => n.items.length != 0
    | none => false

/-- Ascent loop of Go `Iterator.Next` (leaf exhausted: climb to the next
unfinished ancestor, or off the root). -/
def ascendLoop : Nat → St → NodeId → Int → Except Err (Option NodeId × Int × Int)
  | 0, _, _, _ => .error .fuel
  | fuel + 1, s, currId, dir => do
    let ii0 ← nthChildOfParent s currId
    let ii := if dir = reverseDir then ii0 - 1 else ii0
    let ci := if dir = reverseDir then ii0 - 1 else ii0 + 1
    let curr ← getNode s currId
    match curr.parent with
    | none => return (none, ii, ci)
    | some pid => do
      let p ← getNode s pid
      if 0 ≤ ii ∧ ii < (p.items.length : Int) then
        return (some pid, ii, ci)
      else
        ascendLoop fuel s pid dir

/-- Descent loop of Go `Iterator.Next` (drop to the extremal leaf of the
chosen child). -/
def descendLoop : Nat → St → NodeId → Int → Except Err NodeId
  | 0, _, _, _ => .error .fuel
  | fuel + 1, s, currId, dir => do
    let n ← getNode s currId
    if n.children.length = 0 then return currId
    else
      let idx := if dir = reverseDir then n.children.length - 1 else 0
      descendLoop fuel s (n.children.getD idx 0) dir

/-- Go `Iterator.Next`: yield the current item and advance; `none` is the
end-of-iteration error. -/
def Next (fuel : Nat) (s : St) (it : Iterator) : Except Err (Option (Int × Iterator)) := do
  if ¬HasNext s it then return none
  else
    match it.curr with
    | none => return none
    | some cid => do
      let curr ← getNode s cid
      let nextItem ← idxI curr.items it.itemIndex
      if curr.children.length = 0 then
        let ii := it.itemIndex + it.dir
        if 0 ≤ ii ∧ ii < (curr.items.length : Int) then
          return some (nextItem, { it with itemIndex := ii })
        else do
          let r ← ascendLoop fuel s cid it.dir
          return some (nextItem, { it with curr := r.1, itemIndex := r.2.1, childIndex := r.2.2 })
      else do
        let cid2 ← idxI curr.children it.childIndex
        let leafId ← descendLoop fuel s cid2 it.dir
        let leaf ← getNode s leafId
        let ii := if it.dir = reverseDir then (leaf.items.length : Int) - 1 else 0
        return some (nextItem, { it with curr := some leafId, itemIndex := ii })

/-- Run the cursor to exhaustion, collecting the yielded items in order. -/
def drain : Nat → St → Iterator → Except Err (List Int)
  | 0, _, _ => .error .fuel
  | fuel + 1, s, it => do
    match ← Next fuel s it with
    | none => return []
    | some (x, it') => do
      let rest ← drain fuel s it'
      return x :: rest

/-- Go `New`: a tree whose root is a single empty leaf. -/
def New (order : Nat) : St :=
  { order := order, root := 0, nodes := [{ items := [], children := [], parent := none }] }

/-- Loop of Go `Bulkload`: split each item into the tracked rightmost node,
then re-track the parent's last child. -/
def bulkloadLoop : Nat → St → NodeId → List Int → Except Err St
  | 0, _, _, _ => .error .fuel
  | _ + 1, s, _, [] => .ok s
  | fuel + 1, s, maxId, x :: rest => do
    let s ← split fuel s maxId x
    let mx ← getNode s maxId
    let maxId2 ←
      match mx.parent with
      | some pid => do
        let p ← getNode s pid
        if p.children.length > 0 then
          idxI p.children ((p.children.length : Int) - 1)
        else pure maxId
      | none => pure maxId
    bulkloadLoop fuel s maxId2 rest

/-- Go `Bulkload`: build a tree from a sorted sequence via the split engine. -/
def Bulkload (fuel : Nat) (order : Nat) (its : List Int) : Except Err St :=
  bulkloadLoop fuel (New order) (New order).root its

/-- Loop of Go `Merge`: two-way strict-less-than merge driven by the two
forward iterators, with the one-item `oldA`/`oldB` holdback registers. -/
def mergeLoop : Nat → St → St → Iterator → Iterator → Option Int → Option Int → List Int → Except Err (List Int)
  | 0, _, _, _, _, _, _, _ => .error .fuel
  | fuel + 1, sa, sb, ia, ib, oldA, oldB, acc => do
    if ¬HasNext sa ia ∧ ¬HasNext sb ib then
      return acc
    else do
      let ra ←
        match oldA with
        | some v => pure ((some v : Option Int), ia)
        | none =>
          if HasNext sa ia then do
            match ← Next fuel sa ia with
            | some (v, it') => pure (some v, it')
            | none => pure (none, ia)
          else pure (none, ia)
      let rb ←
        match oldB with
        | some v => pure ((some v : Option Int), ib)
        | none =>
          if HasNext sb ib then do
            match ← Next fuel sb ib with
            | some (v, it') => pure (some v, it')
            | none => pure (none, ib)
          else pure (none, ib)
      match ra.1, rb.1 with
      | some a, some b =>
        if a < b then mergeLoop fuel sa sb ra.2 rb.2 none (some b) (acc ++ [a])
        else if b < a then mergeLoop fuel sa sb ra.2 rb.2 (some a) none (acc ++ [b])
        else mergeLoop fuel sa sb ra.2 rb.2 oldA oldB acc
      | some a, none => mergeLoop fuel sa sb ra.2 rb.2 none none (acc ++ [a])
      | none, some b => mergeLoop fuel sa sb ra.2 rb.2 none none (acc ++ [b])
      | none, none => mergeLoop fuel sa sb ra.2 rb.2 oldA oldB acc

/-- Go `Merge`: `none` is the order-mismatch error; otherwise bulkload the
merged output sequence at the common order. -/
def Merge (fuel : Nat) (sa sb : St) : Except Err (Option St) := do
  if sa.order ≠ sb.order then return none
  else do
    let ia ← NewIterator fuel sa
    let ib ← NewIterator fuel sb
    let merged ← mergeLoop fuel sa sb ia ib none none []
    let mt ← Bulkload fuel sb.order merged
    return some mt

/-- Every item stored in the subtree under `nid` (node-first traversal
order). -/
def subtreeItems : Nat → St → NodeId → Except Err (List Int)
  | 0, _, _ => .error .fuel
  | fuel + 1, s, nid => do
    let n ← getNode s nid
    let kids ← n.children.mapM (subtreeItems fuel s)
    return n.items ++ kids.flatten

/-- Every item stored in the tree, sorted ascending (the stored key set as a
sorted list). -/
def storedItems (fuel : Nat) (s : St) : Except Err (List Int) := do
  let l ← subtreeItems fuel s s.root
  return l.insertionSort (fun a b => a ≤ b)

/-- Success test for an `Except` outcome. -/
def okB : Except Err α → Bool
  | .ok _ => true
  | .error _ => false

/-- The state has the given order and every allocated node holds at most
`m - 1` items. -/
def Bounded (m : Nat) (s : St) : Prop :=
  s.order = m ∧ ∀ i n, s.nodes.get? i = some n → n.items.length ≤ m - 1

/-- Same, except that the node behind the single pointer `nid` may
transiently hold up to `m` items (the just-inserted, not-yet-split node). -/
def BoundedB (m : Nat) (s : St) (nid : NodeId) : Prop :=
  s.order = m ∧
    ∀ i n, s.nodes.get? i = some n → n.items.length ≤ (if i = nid then m else m - 1)

/-- Trees of order `m` built through the public interface: construction,
point insertion and deletion, bulk construction at order `m`, and merging of
two such trees. -/
inductive ReachableM (m : Nat) : St → Prop where
  | new : ReachableM m (New m)
  | insert (fuel : Nat) (s s' : St) (item : Int) :
      ReachableM m s → Insert fuel s item = .ok s' → ReachableM m s'
  | delete (fuel : Nat) (s s' : St) (item : Int) :
      ReachableM m s → Delete fuel s item = .ok s' → ReachableM m s'
  | bulkload (fuel : Nat) (its : List Int) (s' : St) :
      Bulkload fuel m its = .ok s' → ReachableM m s'
  | merge (fuel : Nat) (sa sb s' : St) :
      ReachableM m sa → ReachableM m sb → Merge fuel sa sb = .ok (some s') →
      ReachableM m s'

/-! Inversion helpers for `Except` programs. -/

/-- Bind of an `Except` program succeeds exactly when both stages succeed. -/
theorem exceptBind_ok {ε α β : Type} {x : Except ε α} {f : α → Except ε β} {b : β}
    (h : x >>= f = .ok b) : ∃ a, x = .ok a ∧ f a = .ok b := by
  cases x with
  | error e => simp [Bind.bind, Except.bind] at h
  | ok a => exact ⟨a, rfl, by simpa [Bind.bind, Except.bind] using h⟩

/-- A successful `search` descent step-for-step forces the `Insert` descent to
stop with the duplicate-found signal: the two loops are the same loop. -/
theorem searchLoop_some_insertLoop_none :
    ∀ (fuel : Nat) (s : St) (item : Int) (c : NodeId) (r : NodeId × Nat),
      searchLoop fuel s item c = .ok (some r) →
      insertLoop fuel s item c = .ok none := by
  intro fuel
  induction fuel with
  | zero => intro s item c r h; simp [searchLoop] at h
  | succ fuel ih =>
    intro s item c r h
    simp only [searchLoop, insertLoop] at h ⊢
    obtain ⟨n, hn, h⟩ := exceptBind_ok h
    rw [hn]
    simp only [Bind.bind, Except.bind]
    by_cases hm : matchAt n.items item ((find n.items item : Int) - 1)
    · simp [hm, pure, Except.pure]
    · simp only [hm, Bool.false_eq_true, if_false] at h ⊢
      by_cases hi : find n.items item ≥ n.children.length
      · simp only [hi, if_true] at h
        simp [pure, Except.pure] at h
      · simp only [hi, if_false] at h ⊢
        exact ih s item _ r h

/-- C7: if the tree already contains an item equal to `x` under the derived
equality — operationally, `Search` succeeds and returns a stored value — then
`Insert x` is a silent no-op returning the state bit-identically unchanged:
same structure, same stored items, same size. -/
theorem C7_insert_is_noop_on_present_key (fuel : Nat) (s : St) (item val : Int)
    (h : Search fuel s item = .ok (some val)) : Insert fuel s item = .ok s := by
  have hs : ∃ r, search fuel s item = .ok (some r) := by
    unfold Search at h
    obtain ⟨o, ho, h⟩ := exceptBind_ok h
    match o with
    | none =>
      simp [pure, Except.pure] at h
    | some r => exact ⟨r, ho⟩
  obtain ⟨r, hr⟩ := hs
  unfold Insert
  rw [show insertLoop fuel s item s.root = .ok none from
    searchLoop_some_insertLoop_none fuel s item s.root r hr]
  rfl

/-- Witness for C7 at a concrete input: the one-node tree of order 3 holding
item 5; a second `Insert 5` returns the state unchanged. -/
theorem C7_insert_is_noop_on_present_key_witness :
    Insert 9 { order := 3, root := 0, nodes := [{ items := [5], children := [], parent := none }] } 5
      = .ok { order := 3, root := 0, nodes := [{ items := [5], children := [], parent := none }] } :=
  C7_insert_is_noop_on_present_key 9
    { order := 3, root := 0, nodes := [{ items := [5], children := [], parent := none }] } 5 5 rfl

/-- C8: deleting a key that is absent — operationally, `Search` reports
not-found — leaves the tree bit-identical: `Delete` returns the same state,
so no node, item, child link, or parent link changes. -/
theorem C8_delete_absent_is_identity (fuel : Nat) (s : St) (item : Int)
    (h : Search fuel s item = .ok none) : Delete fuel s item = .ok s := by
  have hs : search fuel s item = .ok none := by
    unfold Search at h
    obtain ⟨o, ho, h⟩ := exceptBind_ok h
    match o with
    | none => exact ho
    | some r =>
      obtain ⟨n, hn, h⟩ := exceptBind_ok h
      obtain ⟨x, hx, h⟩ := exceptBind_ok h
      simp [pure, Except.pure] at h
  unfold Delete
  rw [hs]
  rfl

/-- Witness for C8 at a concrete input: deleting 5 from the freshly
constructed (empty) order-3 tree returns it unchanged. -/
theorem C8_delete_absent_is_identity_witness :
    Delete 9 (New 3) 5 = .ok (New 3) :=
  C8_delete_absent_is_identity 9 (New 3) 5 rfl

/-- C2 fails on the code: merging the order-3 trees {0} and {1} loses the
pending item 1 (result stores only [0]), and merging {0} with {0} drops both
copies of the equal key (result stores nothing) — not the set union. -/
theorem C2_merge_loses_keys :
    ((do
      let a ← Insert 99 (New 3) 0
      let b ← Insert 99 (New 3) 1
      let m ← Merge 99 a b
      match m with
      | some mt => storedItems 99 mt
      | none => pure []) = Except.ok [0]) ∧
    ((do
      let a ← Insert 99 (New 3) 0
      let b ← Insert 99 (New 3) 0
      let m ← Merge 99 a b
      match m with
      | some mt => storedItems 99 mt
      | none => pure []) = Except.ok []) := ⟨rfl, rfl⟩

/-- C3 fails on the code: at the valid minimum order 2, after inserting
0, 2, 1, 3, the call `Delete 3` panics (index out of range on the empty
separator slice of a single-child parent) instead of completing. -/
theorem C3_delete_panics_at_order_two :
    (okB (do
      let s ← Insert 99 (New 2) 0
      let s ← Insert 99 s 2
      let s ← Insert 99 s 1
      Insert 99 s 3) = true) ∧
    ((do
      let s ← Insert 99 (New 2) 0
      let s ← Insert 99 s 2
      let s ← Insert 99 s 1
      let s ← Insert 99 s 3
      Delete 99 s 3) = Except.error .panic) := ⟨rfl, rfl⟩

/-- C4 fails on the code: the order-2 tree built by `Insert 0; Insert 1`
stores exactly the items 0 and 1, yet the reverse iterator starts on an
empty rightmost leaf and yields nothing at all (forward yields both). -/
theorem C4_reverse_iterator_yields_nothing :
    ((do
      let s ← Insert 99 (New 2) 0
      let s ← Insert 99 s 1
      storedItems 99 s) = Except.ok [0, 1]) ∧
    ((do
      let s ← Insert 99 (New 2) 0
      let s ← Insert 99 s 1
      let it ← NewReverseIterator 99 s
      drain 99 s it) = Except.ok []) := ⟨rfl, rfl⟩

/-- C6 fails on the code: in the order-2 tree built by `Insert 0; Insert 2;
Insert 1`, the rightmost leaf under item 2's left subtree is empty, so
`Delete 2` never overwrites the stored 2 and a subsequent `Search 2`
still finds it. -/
theorem C6_delete_then_search_still_finds :
    (do
      let s ← Insert 99 (New 2) 0
      let s ← Insert 99 s 2
      let s ← Insert 99 s 1
      let s ← Delete 99 s 2
      Search 99 s 2) = Except.ok (some 2) := rfl

/-- C9 fails on the code: `Bulkload` at the valid minimum order 2 of the
strictly ascending sequence [0,1,2,3,4] stores all five items, but forward
iteration stops after [0,1,2,3] — the round-trip loses item 4. -/
theorem C9_bulkload_roundtrip_loses_items :
    ((do
      let s ← Bulkload 99 2 [0, 1, 2, 3, 4]
      storedItems 99 s) = Except.ok [0, 1, 2, 3, 4]) ∧
    ((do
      let s ← Bulkload 99 2 [0, 1, 2, 3, 4]
      let it ← NewIterator 99 s
      drain 99 s it) = Except.ok [0, 1, 2, 3]) := ⟨rfl, rfl⟩

/-! Machinery for the node-fill bound: every node of a tree of order `m ≥ 3`
built through the public interface holds at most `m - 1` items. -/

/-- Pure stage of an `Except` program returns its argument. -/
theorem exceptPure_ok {α : Type} {a b : α} (h : (pure a : Except Err α) = .ok b) : a = b := by
  simpa [pure, Except.pure] using h

/-- A successful dereference inverts to a `get?` fact. -/
theorem getNode_ok (hg : getNode s nid = .ok n) : s.nodes.get? nid = some n := by
  unfold getNode at hg
  cases hq : s.nodes.get? nid with
  | none => rw [hq] at hg; exact absurd hg (by simp)
  | some n0 =>
    rw [hq] at hg
    injection hg with h2
    rw [h2]

/-- A successful dereference witnesses that the pointer is in range. -/
theorem getNode_lt (hg : getNode s nid = .ok n) : nid < s.nodes.length := by
  rcases Nat.lt_or_ge nid s.nodes.length with h | h
  · exact h
  · exfalso
    have hnone : s.nodes.get? nid = none := List.get?_eq_none.mpr h
    unfold getNode at hg
    rw [hnone] at hg
    exact absurd hg (by simp)

/-- A successfully dereferenced node of a bounded state is bounded. -/
theorem Bounded.get (h : Bounded m s) (hg : getNode s nid = .ok n) :
    n.items.length ≤ m - 1 :=
  h.2 nid n (getNode_ok hg)

/-- Reading a different pointer is unaffected by a write. -/
theorem getNode_set_other (hne : nid ≠ nid') :
    getNode (setNode s nid n) nid' = getNode s nid' := by
  unfold getNode setNode
  simp [List.get?_eq_getElem?, List.getElem?_set_ne hne]

/-- Reading back the slot just written (in range) yields the written value. -/
theorem get?_set_self_eq {α : Type} {l : List α} {i : Nat} {a x : α}
    (hr : i < l.length) (hx : (l.set i a).get? i = some x) : x = a := by
  rw [List.get?_eq_getElem?, List.getElem?_set_self', List.getElem?_eq_getElem hr] at hx
  simp [Function.const] at hx
  exact hx.symm

/-- Writing a bounded node preserves boundedness. -/
theorem Bounded.set (h : Bounded m s) (nid : NodeId) (hn : n.items.length ≤ m - 1) :
    Bounded m (setNode s nid n) := by
  refine ⟨h.1, fun i x hx => ?_⟩
  by_cases hi : nid = i
  · subst hi
    by_cases hr : nid < s.nodes.length
    · rw [show (setNode s nid n).nodes = s.nodes.set nid n from rfl] at hx
      rw [get?_set_self_eq hr hx]
      exact hn
    · rw [show (setNode s nid n).nodes = s.nodes.set nid n from rfl,
          List.set_eq_of_length_le (Nat.le_of_not_lt hr)] at hx
      exact h.2 nid x hx
  · rw [show (setNode s nid n).nodes = s.nodes.set nid n from rfl,
        List.get?_eq_getElem?, List.getElem?_set_ne hi, ← List.get?_eq_getElem?] at hx
    exact h.2 i x hx

/-- Allocating a bounded node preserves boundedness. -/
theorem Bounded.alloc (h : Bounded m s) (hn : n.items.length ≤ m - 1) :
    Bounded m (allocNode s n).1 := by
  refine ⟨h.1, fun i x hx => ?_⟩
  rw [show (allocNode s n).1.nodes = s.nodes ++ [n] from rfl] at hx
  by_cases hi : i < s.nodes.length
  · rw [List.get?_eq_getElem?, List.getElem?_append, if_pos hi, ← List.get?_eq_getElem?] at hx
    exact h.2 i x hx
  · rw [List.get?_eq_getElem?, List.getElem?_append, if_neg hi, ← List.get?_eq_getElem?] at hx
    cases hd : i - s.nodes.length with
    | zero => rw [hd] at hx; injection hx with hx; rw [← hx]; exact hn
    | succ k => rw [hd] at hx; simp at hx

/-- Re-rooting the tree container does not touch the arena. -/
theorem Bounded.reroot (h : Bounded m s) : Bounded m { s with root := r } :=
  ⟨h.1, h.2⟩

/-- Overfilling one node (to at most `m` items) of a bounded state. -/
theorem BoundedB.ofSet (h : Bounded m s) (nid : NodeId) (hn : n.items.length ≤ m) :
    BoundedB m (setNode s nid n) nid := by
  refine ⟨h.1, fun i x hx => ?_⟩
  by_cases hi : nid = i
  · subst hi
    rw [if_pos rfl]
    by_cases hr : nid < s.nodes.length
    · rw [show (setNode s nid n).nodes = s.nodes.set nid n from rfl] at hx
      rw [get?_set_self_eq hr hx]
      exact hn
    · rw [show (setNode s nid n).nodes = s.nodes.set nid n from rfl,
          List.set_eq_of_length_le (Nat.le_of_not_lt hr)] at hx
      calc x.items.length ≤ m - 1 := h.2 nid x hx
        _ ≤ m := Nat.sub_le m 1
  · rw [show (setNode s nid n).nodes = s.nodes.set nid n from rfl,
        List.get?_eq_getElem?, List.getElem?_set_ne hi, ← List.get?_eq_getElem?] at hx
    rw [if_neg (fun hc => hi hc.symm)]
    exact h.2 i x hx

/-- The exceptional node of a `BoundedB` state holds at most `m` items. -/
theorem BoundedB.getSelf (h : BoundedB m s nid) (hg : getNode s nid = .ok n) :
    n.items.length ≤ m := by
  have := h.2 nid n (getNode_ok hg)
  rw [if_pos rfl] at this
  exact this

/-- Allocation away from the exceptional pointer keeps `BoundedB`. -/
theorem BoundedB.allocKeep (h : BoundedB m s nid) (hr : nid < s.nodes.length)
    (hn : n.items.length ≤ m - 1) : BoundedB m (allocNode s n).1 nid := by
  refine ⟨h.1, fun i x hx => ?_⟩
  rw [show (allocNode s n).1.nodes = s.nodes ++ [n] from rfl] at hx
  by_cases hi : i < s.nodes.length
  · rw [List.get?_eq_getElem?, List.getElem?_append, if_pos hi, ← List.get?_eq_getElem?] at hx
    exact h.2 i x hx
  · rw [List.get?_eq_getElem?, List.getElem?_append, if_neg hi, ← List.get?_eq_getElem?] at hx
    cases hd : i - s.nodes.length with
    | zero =>
      rw [hd] at hx
      injection hx with hx
      rw [if_neg (fun heq => hi (by rw [heq]; exact hr))]
      rw [← hx]
      exact hn
    | succ k => rw [hd] at hx; simp at hx

/-- Overwriting the exceptional node with a bounded one restores `Bounded`. -/
theorem BoundedB.setFull (h : BoundedB m s nid) (hn : n.items.length ≤ m - 1) :
    Bounded m (setNode s nid n) := by
  refine ⟨h.1, fun i x hx => ?_⟩
  by_cases hi : nid = i
  · subst hi
    by_cases hr : nid < s.nodes.length
    · rw [show (setNode s nid n).nodes = s.nodes.set nid n from rfl] at hx
      rw [get?_set_self_eq hr hx]
      exact hn
    · rw [show (setNode s nid n).nodes = s.nodes.set nid n from rfl,
          List.set_eq_of_length_le (Nat.le_of_not_lt hr)] at hx
      exact absurd hx (by rw [List.get?_eq_none.mpr (Nat.le_of_not_lt hr)]; simp)
  · rw [show (setNode s nid n).nodes = s.nodes.set nid n from rfl,
        List.get?_eq_getElem?, List.getElem?_set_ne hi, ← List.get?_eq_getElem?] at hx
    have := h.2 i x hx
    rw [if_neg (fun hc => hi hc.symm)] at this
    exact this

/-- The binary-search loop stays inside its bracket. -/
theorem sortSearchLoop_le (f : Nat → Bool) :
    ∀ (fuel i j : Nat), i ≤ j → i ≤ sortSearchLoop f fuel i j ∧ sortSearchLoop f fuel i j ≤ j := by
  intro fuel
  induction fuel with
  | zero => intro i j hij; simp [sortSearchLoop, hij]
  | succ fuel ih =>
    intro i j hij
    simp only [sortSearchLoop]
    by_cases hlt : i < j
    · simp only [hlt, if_true]
      by_cases hf : f ((i + j) / 2)
      · simp only [hf, if_true]
        have := ih i ((i + j) / 2) (by omega)
        omega
      · simp only [hf, Bool.false_eq_true, if_false]
        have := ih ((i + j) / 2 + 1) j (by omega)
        omega
    · rw [if_neg hlt]
      exact ⟨Nat.le_refl i, hij⟩

/-- Go `find` never points past the end of the sequence. -/
theorem find_le (its : List Int) (it : Int) : find its it ≤ its.length := by
  have := sortSearchLoop_le (fun i => it < its.getD i 0) (its.length + 1) 0 its.length (by omega)
  simpa [find, sortSearch] using this.2

/-- Ordered insertion grows the sequence by exactly one. -/
theorem itemsInsert_length (its : List Int) (it : Int) :
    (itemsInsert its it).length = its.length + 1 := by
  have := find_le its it
  simp only [itemsInsert, List.length_append, List.length_take, List.length_drop,
    List.length_cons, List.length_nil]
  omega

/-- Reparenting writes only parent pointers, never item sequences. -/
theorem reparentAll_bounded {m : Nat} :
    ∀ (ids : List NodeId) (s : St) (pid : NodeId) (s' : St),
      Bounded m s → reparentAll s ids pid = .ok s' → Bounded m s' := by
  intro ids
  induction ids with
  | nil =>
    intro s pid s' hb h
    unfold reparentAll at h
    cases h
    exact hb
  | cons c rest ih =>
    intro s pid s' hb h
    unfold reparentAll at h
    obtain ⟨cn, hcn, h⟩ := exceptBind_ok h
    have hlen : ({ cn with parent := some pid } : node).items.length ≤ m - 1 := by
      simpa using hb.get hcn
    exact ih _ pid s' (hb.set c hlen) h

/-- The split engine preserves the `m - 1` fill bound (`m ≥ 3`): it fires
exactly when the insertion lifts a node to `m` items, and every node it
writes ends at or below `m - 1` items. -/
theorem split_bounded {m : Nat} (h3 : 3 ≤ m) :
    ∀ (fuel : Nat) (s : St) (nid : NodeId) (item : Int) (s' : St),
      Bounded m s → split fuel s nid item = .ok s' → Bounded m s' := by
  intro fuel
  induction fuel with
  | zero => intro s nid item s' _ h; simp [split] at h
  | succ fuel ih =>
    intro s nid item s' hb h
    simp only [split, allocNode] at h
    obtain ⟨n, hn, h⟩ := exceptBind_ok h
    have hnb : n.items.length ≤ m - 1 := hb.get hn
    have hnr : nid < s.nodes.length := getNode_lt hn
    have hlen : (itemsInsert n.items item).length = n.items.length + 1 := itemsInsert_length _ _
    by_cases hfit :
        (itemsInsert n.items item).length <
          (setNode s nid { n with items := itemsInsert n.items item }).order
    · rw [if_pos hfit] at h
      cases exceptPure_ok h
      refine hb.set nid ?_
      have hfit2 : (itemsInsert n.items item).length < s.order := hfit
      have hord : s.order = m := hb.1
      show (itemsInsert n.items item).length ≤ m - 1
      omega
    · rw [if_neg hfit] at h
      have hfit2 : ¬(itemsInsert n.items item).length < s.order := hfit
      have hord : s.order = m := hb.1
      have hm : (itemsInsert n.items item).length = m := by omega
      obtain ⟨midItem, hmid, h⟩ := exceptBind_ok h
      set NI := itemsInsert n.items item with hNI
      set A : node := { items := NI, children := n.children, parent := n.parent } with hA
      set S1 : St := setNode s nid A with hS1
      set R : node := { items := List.drop (NI.length / 2 + 1) NI, children := [], parent := n.parent } with hR
      set S2 : St := { order := S1.order, root := S1.root, nodes := S1.nodes ++ [R] } with hS2
      have hbS1 : BoundedB m S1 nid := by
        rw [hS1]
        refine BoundedB.ofSet hb nid ?_
        rw [hA]
        show NI.length ≤ m
        omega
      have hrS1 : nid < S1.nodes.length := by
        rw [hS1]
        simpa [setNode] using hnr
      have hRb : R.items.length ≤ m - 1 := by
        rw [hR]
        show (List.drop (NI.length / 2 + 1) NI).length ≤ m - 1
        rw [List.length_drop]
        omega
      have hbS2 : BoundedB m S2 nid := by
        rw [hS2]
        exact hbS1.allocKeep hrS1 hRb
      obtain ⟨n1, hn1, h⟩ := exceptBind_ok h
      set T : node := { items := List.take (NI.length / 2) n1.items, children := n1.children, parent := n1.parent } with hT
      set S3 : St := setNode S2 nid T with hS3
      have hbS3 : Bounded m S3 := by
        rw [hS3]
        refine hbS2.setFull ?_
        rw [hT]
        show (List.take (NI.length / 2) n1.items).length ≤ m - 1
        rw [List.length_take]
        omega
      obtain ⟨n2, hn2, h⟩ := exceptBind_ok h
      have hn2b : n2.items.length ≤ m - 1 := hbS3.get hn2
      by_cases hch : n2.children.length > 0
      · rw [if_pos hch] at h
        obtain ⟨r, hrr, h⟩ := exceptBind_ok h
        obtain ⟨y, hy, h⟩ := exceptBind_ok h
        have hb4 : Bounded m (setNode S3 nid
            { items := n2.items, children := List.take (NI.length / 2 + 1) n2.children,
              parent := n2.parent }) := Bounded.set hbS3 nid hn2b
        have hb5 : Bounded m (setNode (setNode S3 nid
            { items := n2.items, children := List.take (NI.length / 2 + 1) n2.children,
              parent := n2.parent }) S1.nodes.length
            { items := r.items, children := List.drop (NI.length / 2 + 1) n2.children,
              parent := r.parent }) :=
          Bounded.set hb4 S1.nodes.length (hb4.get hrr : r.items.length ≤ m - 1)
        have hb6 : Bounded m y := reparentAll_bounded _ _ _ _ hb5 hy
        cases hp : n2.parent with
        | none =>
          rw [hp] at h
          obtain ⟨n3, hn3, h⟩ := exceptBind_ok h
          obtain ⟨r2, hr2, h⟩ := exceptBind_ok h
          cases exceptPure_ok h
          have hb7 : Bounded m (allocNode y
              { items := [midItem], children := [nid, S1.nodes.length], parent := none }).1 :=
            hb6.alloc (by show (1 : Nat) ≤ m - 1; omega)
          have hb8 : Bounded m (setNode (allocNode y
              { items := [midItem], children := [nid, S1.nodes.length], parent := none }).1 nid
              { items := n3.items, children := n3.children, parent := some y.nodes.length }) :=
            Bounded.set hb7 nid (hb7.get hn3 : n3.items.length ≤ m - 1)
          exact Bounded.reroot (Bounded.set hb8 S1.nodes.length (hb8.get hr2 : r2.items.length ≤ m - 1))
        | some pid =>
          rw [hp] at h
          obtain ⟨p, hpp, h⟩ := exceptBind_ok h
          by_cases hgd : find p.items item + 1 ≤ p.children.length
          · rw [if_pos hgd] at h
            refine ih _ _ _ _ ?_ h
            exact Bounded.set hb6 pid (hb6.get hpp : p.items.length ≤ m - 1)
          · rw [if_neg hgd] at h
            exact absurd h (by simp)
      · rw [if_neg hch] at h
        obtain ⟨s0, hs0, h⟩ := exceptBind_ok h
        cases exceptPure_ok hs0
        cases hp : n2.parent with
        | none =>
          rw [hp] at h
          obtain ⟨n3, hn3, h⟩ := exceptBind_ok h
          obtain ⟨r2, hr2, h⟩ := exceptBind_ok h
          cases exceptPure_ok h
          have hb7 : Bounded m (allocNode S3
              { items := [midItem], children := [nid, S1.nodes.length], parent := none }).1 :=
            hbS3.alloc (by show (1 : Nat) ≤ m - 1; omega)
          have hb8 : Bounded m (setNode (allocNode S3
              { items := [midItem], children := [nid, S1.nodes.length], parent := none }).1 nid
              { items := n3.items, children := n3.children, parent := some S3.nodes.length }) :=
            Bounded.set hb7 nid (hb7.get hn3 : n3.items.length ≤ m - 1)
          exact Bounded.reroot (Bounded.set hb8 S1.nodes.length (hb8.get hr2 : r2.items.length ≤ m - 1))
        | some pid =>
          rw [hp] at h
          obtain ⟨p, hpp, h⟩ := exceptBind_ok h
          by_cases hgd : find p.items item + 1 ≤ p.children.length
          · rw [if_pos hgd] at h
            refine ih _ _ _ _ ?_ h
            exact Bounded.set hbS3 pid (hbS3.get hpp : p.items.length ≤ m - 1)
          · rw [if_neg hgd] at h
            exact absurd h (by simp)

/-- In-place overwrite keeps the sequence length. -/
theorem setI_ok_length {α : Type} {l : List α} {i : Int} {x : α} {l' : List α}
    (h : setI l i x = .ok l') : l'.length = l.length := by
  unfold setI at h
  by_cases hc : 0 ≤ i ∧ i.toNat < l.length
  · rw [if_pos hc] at h
    injection h with h
    rw [← h]
    simp
  · rw [if_neg hc] at h
    exact absurd h (by simp)

/-- Removal never grows the sequence. -/
theorem delI_ok_length {α : Type} {l : List α} {i : Int} {l' : List α}
    (h : delI l i = .ok l') : l'.length ≤ l.length := by
  unfold delI at h
  by_cases hc : 0 ≤ i ∧ i.toNat < l.length
  · rw [if_pos hc] at h
    injection h with h
    rw [← h]
    simp only [List.length_append, List.length_take, List.length_drop]
    omega
  · rw [if_neg hc] at h
    exact absurd h (by simp)

/-- The left-rotation arm preserves the fill bound, provided the rebalanced
node has room for the separator it receives. -/
theorem rotateLeft_bounded {m : Nat} {s : St} {nid pid sibId : NodeId} {rSepPos : Int} {s' : St}
    (hb : Bounded m s)
    (hgrow : ∀ n0, getNode s nid = .ok n0 → n0.items.length + 1 ≤ m - 1)
    (h : rotateLeft s nid pid sibId rSepPos = .ok s') : Bounded m s' := by
  simp only [rotateLeft] at h
  obtain ⟨n, hn, h⟩ := exceptBind_ok h
  obtain ⟨p, hp, h⟩ := exceptBind_ok h
  obtain ⟨sepItem, hsep, h⟩ := exceptBind_ok h
  set S1 := setNode s nid { items := n.items ++ [sepItem], children := n.children, parent := n.parent } with hS1
  have hb1 : Bounded m S1 := by
    rw [hS1]
    exact Bounded.set hb nid (by simpa using hgrow n hn)
  obtain ⟨sib, hsib, h⟩ := exceptBind_ok h
  obtain ⟨sib0, hsib0, h⟩ := exceptBind_ok h
  obtain ⟨p2, hp2, h⟩ := exceptBind_ok h
  obtain ⟨pItems, hpI, h⟩ := exceptBind_ok h
  set S2 := setNode S1 pid { items := pItems, children := p2.children, parent := p2.parent } with hS2
  have hb2 : Bounded m S2 := by
    rw [hS2]
    refine Bounded.set hb1 pid ?_
    show pItems.length ≤ m - 1
    rw [setI_ok_length hpI]
    exact hb1.get hp2
  obtain ⟨sib2, hsib2, h⟩ := exceptBind_ok h
  obtain ⟨sItems, hsI, h⟩ := exceptBind_ok h
  set S3 := setNode S2 sibId { items := sItems, children := sib2.children, parent := sib2.parent } with hS3
  have hb3 : Bounded m S3 := by
    rw [hS3]
    refine Bounded.set hb2 sibId ?_
    show sItems.length ≤ m - 1
    exact le_trans (delI_ok_length hsI) (hb2.get hsib2)
  obtain ⟨sib3, hsib3, h⟩ := exceptBind_ok h
  by_cases hch : sib3.children.length > 0
  · rw [if_pos hch] at h
    obtain ⟨c0, hc0, h⟩ := exceptBind_ok h
    obtain ⟨cn, hcn, h⟩ := exceptBind_ok h
    set S4 := setNode S3 c0 { items := cn.items, children := cn.children, parent := some nid } with hS4
    have hb4 : Bounded m S4 := by
      rw [hS4]
      exact Bounded.set hb3 c0 (hb3.get hcn : cn.items.length ≤ m - 1)
    obtain ⟨n4, hn4, h⟩ := exceptBind_ok h
    set S5 := setNode S4 nid { items := n4.items, children := n4.children ++ [c0], parent := n4.parent } with hS5
    have hb5 : Bounded m S5 := by
      rw [hS5]
      exact Bounded.set hb4 nid (hb4.get hn4 : n4.items.length ≤ m - 1)
    obtain ⟨sib4, hsib4, h⟩ := exceptBind_ok h
    obtain ⟨sChildren, hsC, h⟩ := exceptBind_ok h
    cases exceptPure_ok h
    exact Bounded.set hb5 sibId (hb5.get hsib4 : sib4.items.length ≤ m - 1)
  · rw [if_neg hch] at h
    exact (exceptPure_ok h) ▸ hb3

/-- The right-rotation arm preserves the fill bound, provided the rebalanced
node has room for the separator it receives. -/
theorem rotateRight_bounded {m : Nat} {s : St} {nid pid sibId : NodeId} {lSepPos : Int} {s' : St}
    (hb : Bounded m s)
    (hgrow : ∀ n0, getNode s nid = .ok n0 → n0.items.length + 1 ≤ m - 1)
    (h : rotateRight s nid pid sibId lSepPos = .ok s') : Bounded m s' := by
  simp only [rotateRight] at h
  obtain ⟨n, hn, h⟩ := exceptBind_ok h
  obtain ⟨p, hp, h⟩ := exceptBind_ok h
  obtain ⟨sepItem, hsep, h⟩ := exceptBind_ok h
  set S1 := setNode s nid { items := [sepItem] ++ n.items, children := n.children, parent := n.parent } with hS1
  have hb1 : Bounded m S1 := by
    rw [hS1]
    refine Bounded.set hb nid ?_
    show ([sepItem] ++ n.items).length ≤ m - 1
    have := hgrow n hn
    simp only [List.length_append, List.length_cons, List.length_nil]
    omega
  obtain ⟨sib, hsib, h⟩ := exceptBind_ok h
  obtain ⟨sLast, hsLast, h⟩ := exceptBind_ok h
  obtain ⟨p2, hp2, h⟩ := exceptBind_ok h
  obtain ⟨pItems, hpI, h⟩ := exceptBind_ok h
  set S2 := setNode S1 pid { items := pItems, children := p2.children, parent := p2.parent } with hS2
  have hb2 : Bounded m S2 := by
    rw [hS2]
    refine Bounded.set hb1 pid ?_
    show pItems.length ≤ m - 1
    rw [setI_ok_length hpI]
    exact hb1.get hp2
  obtain ⟨sib2, hsib2, h⟩ := exceptBind_ok h
  obtain ⟨sItems, hsI, h⟩ := exceptBind_ok h
  set S3 := setNode S2 sibId { items := sItems, children := sib2.children, parent := sib2.parent } with hS3
  have hb3 : Bounded m S3 := by
    rw [hS3]
    refine Bounded.set hb2 sibId ?_
    show sItems.length ≤ m - 1
    exact le_trans (delI_ok_length hsI) (hb2.get hsib2)
  obtain ⟨sib3, hsib3, h⟩ := exceptBind_ok h
  by_cases hch : sib3.children.length > 0
  · rw [if_pos hch] at h
    obtain ⟨lastChild, hlc, h⟩ := exceptBind_ok h
    obtain ⟨cn, hcn, h⟩ := exceptBind_ok h
    set S4 := setNode S3 lastChild { items := cn.items, children := cn.children, parent := some nid } with hS4
    have hb4 : Bounded m S4 := by
      rw [hS4]
      exact Bounded.set hb3 lastChild (hb3.get hcn : cn.items.length ≤ m - 1)
    obtain ⟨n4, hn4, h⟩ := exceptBind_ok h
    set S5 := setNode S4 nid { items := n4.items, children := [lastChild] ++ n4.children, parent := n4.parent } with hS5
    have hb5 : Bounded m S5 := by
      rw [hS5]
      exact Bounded.set hb4 nid (hb4.get hn4 : n4.items.length ≤ m - 1)
    obtain ⟨sib4, hsib4, h⟩ := exceptBind_ok h
    obtain ⟨sChildren, hsC, h⟩ := exceptBind_ok h
    cases exceptPure_ok h
    exact Bounded.set hb5 sibId (hb5.get hsib4 : sib4.items.length ≤ m - 1)
  · rw [if_neg hch] at h
    exact (exceptPure_ok h) ▸ hb3

/-- Two successful dereferences of one pointer agree. -/
theorem getNode_det {s : St} {nid : NodeId} {a b : node}
    (h1 : getNode s nid = .ok a) (h2 : getNode s nid = .ok b) : a = b := by
  rw [h1] at h2
  injection h2

/-- The merge arm of `rebalance` preserves the fill bound: fusing the two
siblings (each at or below `minItems` items, one strictly below) with their
separator stays within `m - 1`, and the upward cascade is covered by the
induction hypothesis `ih` for the remaining fuel. -/
theorem mergeArm_bounded {m : Nat} (h3 : 3 ≤ m) (fuel : Nat)
    (ih : ∀ (s : St) (nid : NodeId) (minItems : Nat) (s' : St),
      Bounded m s → minItems ≤ (m + 1) / 2 - 1 →
      (∀ n0, getNode s nid = .ok n0 → n0.items.length < minItems) →
      rebalance fuel s nid minItems = .ok s' → Bounded m s')
    (s : St) (pid leftId rightId : NodeId) (sepPos rightPos : Int) (minItems : Nat) (s' : St)
    (hb : Bounded m s) (hmi : minItems ≤ (m + 1) / 2 - 1)
    (hlb : ∀ ln, getNode s leftId = .ok ln → ln.items.length ≤ minItems)
    (hrb : ∀ rn, getNode s rightId = .ok rn → rn.items.length ≤ minItems)
    (hstrict : (∀ ln, getNode s leftId = .ok ln → ln.items.length < minItems) ∨
      (∀ rn, getNode s rightId = .ok rn → rn.items.length < minItems))
    (h : (do
      let p ← getNode s pid
      let sepItem ← idxI p.items sepPos
      let left ← getNode s leftId
      let s := setNode s leftId { left with items := left.items ++ [sepItem] }
      let left ← getNode s leftId
      let right ← getNode s rightId
      let s := setNode s leftId { left with items := left.items ++ right.items }
      let right ← getNode s rightId
      let s ← reparentAll s right.children leftId
      let left ← getNode s leftId
      let right ← getNode s rightId
      let s := setNode s leftId { left with children := left.children ++ right.children }
      let p ← getNode s pid
      let pItems ← delI p.items sepPos
      let s := setNode s pid { p with items := pItems }
      let p ← getNode s pid
      let pChildren ← delI p.children rightPos
      let s := setNode s pid { p with children := pChildren }
      let p ← getNode s pid
      if p.parent = none ∧ p.items.length = 0 then do
        let right ← getNode s rightId
        let s := setNode s rightId { right with parent := some leftId }
        let left ← getNode s leftId
        let s := setNode s leftId { left with parent := none }
        return { s with root := leftId }
      else do
        let minItems2 := (s.order + 1) / 2 - 1
        let p ← getNode s pid
        if p.items.length < minItems2 then
          rebalance fuel s pid minItems2
        else
          return s) = .ok s') : Bounded m s' := by
  obtain ⟨p, hp, h⟩ := exceptBind_ok h
  obtain ⟨sepItem, hsep, h⟩ := exceptBind_ok h
  obtain ⟨left1, hl1, h⟩ := exceptBind_ok h
  set S1 := setNode s leftId { items := left1.items ++ [sepItem], children := left1.children, parent := left1.parent } with hS1
  have hl1b : left1.items.length ≤ minItems := hlb left1 hl1
  have hb1 : Bounded m S1 := by
    rw [hS1]
    refine Bounded.set hb leftId ?_
    show (left1.items ++ [sepItem]).length ≤ m - 1
    simp only [List.length_append, List.length_cons, List.length_nil]
    omega
  obtain ⟨left2, hl2, h⟩ := exceptBind_ok h
  obtain ⟨right1, hr1, h⟩ := exceptBind_ok h
  have hlf : left2 = { items := left1.items ++ [sepItem], children := left1.children, parent := left1.parent } := by
    have hq := getNode_ok hl2
    rw [hS1] at hq
    exact get?_set_self_eq (getNode_lt hl1) hq
  have hsum : left2.items.length + right1.items.length ≤ 2 * minItems := by
    by_cases hal : rightId = leftId
    · have hr1' : right1 = left2 := by
        rw [hal] at hr1
        exact getNode_det hr1 hl2
      have hstr : left1.items.length < minItems := by
        rcases hstrict with hs1 | hs2
        · exact hs1 left1 hl1
        · rw [hal] at hs2
          exact hs2 left1 hl1
      rw [hr1', hlf]
      simp only [List.length_append, List.length_cons, List.length_nil]
      omega
    · have hr1' : getNode s rightId = .ok right1 := by
        rw [hS1, getNode_set_other (fun he => hal he.symm)] at hr1
        exact hr1
      have hrig : right1.items.length ≤ minItems := hrb right1 hr1'
      rcases hstrict with hs1 | hs2
      · have := hs1 left1 hl1
        rw [hlf]
        simp only [List.length_append, List.length_cons, List.length_nil]
        omega
      · have := hs2 right1 hr1'
        rw [hlf]
        simp only [List.length_append, List.length_cons, List.length_nil]
        omega
  set S2 := setNode S1 leftId { items := left2.items ++ right1.items, children := left2.children, parent := left2.parent } with hS2
  have hb2 : Bounded m S2 := by
    rw [hS2]
    refine Bounded.set hb1 leftId ?_
    show (left2.items ++ right1.items).length ≤ m - 1
    simp only [List.length_append]
    omega
  obtain ⟨right2, hr2, h⟩ := exceptBind_ok h
  obtain ⟨y, hy, h⟩ := exceptBind_ok h
  have hby : Bounded m y := reparentAll_bounded _ _ _ _ hb2 hy
  obtain ⟨left3, hl3, h⟩ := exceptBind_ok h
  obtain ⟨right3, hr3, h⟩ := exceptBind_ok h
  set S3 := setNode y leftId { items := left3.items, children := left3.children ++ right3.children, parent := left3.parent } with hS3
  have hb3 : Bounded m S3 := by
    rw [hS3]
    exact Bounded.set hby leftId (hby.get hl3 : left3.items.length ≤ m - 1)
  obtain ⟨p4, hp4, h⟩ := exceptBind_ok h
  obtain ⟨pItems, hpI, h⟩ := exceptBind_ok h
  set S4 := setNode S3 pid { items := pItems, children := p4.children, parent := p4.parent } with hS4
  have hb4 : Bounded m S4 := by
    rw [hS4]
    refine Bounded.set hb3 pid ?_
    show pItems.length ≤ m - 1
    exact le_trans (delI_ok_length hpI) (hb3.get hp4)
  obtain ⟨p5, hp5, h⟩ := exceptBind_ok h
  obtain ⟨pChildren, hpC, h⟩ := exceptBind_ok h
  set S5 := setNode S4 pid { items := p5.items, children := pChildren, parent := p5.parent } with hS5
  have hb5 : Bounded m S5 := by
    rw [hS5]
    exact Bounded.set hb4 pid (hb4.get hp5 : p5.items.length ≤ m - 1)
  obtain ⟨p6, hp6, h⟩ := exceptBind_ok h
  by_cases hroot : p6.parent = none ∧ p6.items.length = 0
  · rw [if_pos hroot] at h
    obtain ⟨right4, hr4, h⟩ := exceptBind_ok h
    set S6 := setNode S5 rightId { items := right4.items, children := right4.children, parent := some leftId } with hS6
    have hb6 : Bounded m S6 := by
      rw [hS6]
      exact Bounded.set hb5 rightId (hb5.get hr4 : right4.items.length ≤ m - 1)
    obtain ⟨left4, hl4, h⟩ := exceptBind_ok h
    cases exceptPure_ok h
    exact Bounded.reroot (Bounded.set hb6 leftId (hb6.get hl4 : left4.items.length ≤ m - 1))
  · rw [if_neg hroot] at h
    obtain ⟨p7, hp7, h⟩ := exceptBind_ok h
    by_cases hless : p7.items.length < (S5.order + 1) / 2 - 1
    · rw [if_pos hless] at h
      refine ih _ pid _ s' hb5 ?_ ?_ h
      · rw [hb5.1]
      · intro n0 h0
        rw [getNode_det h0 hp7]
        rw [hb5.1] at hless ⊢
        exact hless
    · rw [if_neg hless] at h
      exact (exceptPure_ok h) ▸ hb5

/-- The rebalance engine preserves the fill bound (`m ≥ 3`), given that the
node being rebalanced is strictly under its floor `minItems` and the floor is
at most `⌈m/2⌉ - 1`. -/
theorem rebalance_bounded {m : Nat} (h3 : 3 ≤ m) :
    ∀ (fuel : Nat) (s : St) (nid : NodeId) (minItems : Nat) (s' : St),
      Bounded m s →
      minItems ≤ (m + 1) / 2 - 1 →
      (∀ n0, getNode s nid = .ok n0 → n0.items.length < minItems) →
      rebalance fuel s nid minItems = .ok s' → Bounded m s' := by
  intro fuel
  induction fuel with
  | zero => intro s nid minItems s' _ _ _ h; simp [rebalance] at h
  | succ fuel ih =>
    intro s nid minItems s' hb hmi hsmall h
    simp only [rebalance] at h
    obtain ⟨n, hn, h⟩ := exceptBind_ok h
    cases hpar : n.parent with
    | none =>
      rw [hpar] at h
      exact (exceptPure_ok h) ▸ hb
    | some pid =>
      rw [hpar] at h
      obtain ⟨ptrIndex, hpt, h⟩ := exceptBind_ok h
      obtain ⟨p, hpp, h⟩ := exceptBind_ok h
      have hgrow : ∀ n0, getNode s nid = .ok n0 → n0.items.length + 1 ≤ m - 1 := by
        intro n0 h0
        have := hsmall n0 h0
        omega
      have hrbn : ∀ rn, getNode s nid = .ok rn → rn.items.length ≤ minItems := by
        intro rn h0
        exact le_of_lt (hsmall rn h0)
      by_cases hlg : ptrIndex > 0
      · rw [if_pos hlg] at h
        obtain ⟨v, hv, h⟩ := exceptBind_ok h
        obtain ⟨yv, hyv, h⟩ := exceptBind_ok h
        cases exceptPure_ok hyv
        by_cases hrg : ptrIndex < (p.children.length : Int) - 1
        · rw [if_pos hrg] at h
          obtain ⟨v2, hv2, h⟩ := exceptBind_ok h
          obtain ⟨yv2, hyv2, h⟩ := exceptBind_ok h
          cases exceptPure_ok hyv2
          obtain ⟨sibR, hsibR, h⟩ := exceptBind_ok h
          by_cases hslR : sibR.items.length > minItems
          · rw [if_pos hslR] at h
            obtain ⟨y2, hy2, h⟩ := exceptBind_ok h
            cases exceptPure_ok hy2
            exact rotateLeft_bounded hb hgrow h
          · rw [if_neg hslR] at h
            obtain ⟨y2, hy2, h⟩ := exceptBind_ok h
            cases exceptPure_ok hy2
            obtain ⟨sibL, hsibL, h⟩ := exceptBind_ok h
            by_cases hslL : sibL.items.length > minItems
            · rw [if_pos hslL] at h
              obtain ⟨y3, hy3, h⟩ := exceptBind_ok h
              cases exceptPure_ok hy3
              exact rotateRight_bounded hb hgrow h
            · rw [if_neg hslL] at h
              obtain ⟨y3, hy3, h⟩ := exceptBind_ok h
              cases exceptPure_ok hy3
              refine mergeArm_bounded h3 fuel ih s pid v nid (ptrIndex - 1) ptrIndex minItems s'
                hb hmi ?_ hrbn (Or.inr hsmall) h
              intro ln hln
              rw [getNode_det hln hsibL]
              exact Nat.le_of_not_lt hslL
        · rw [if_neg hrg] at h
          obtain ⟨yv2, hyv2, h⟩ := exceptBind_ok h
          cases exceptPure_ok hyv2
          obtain ⟨tl, htl, h⟩ := exceptBind_ok h
          cases exceptPure_ok htl
          obtain ⟨sibL, hsibL, h⟩ := exceptBind_ok h
          by_cases hslL : sibL.items.length > minItems
          · rw [if_pos hslL] at h
            obtain ⟨y3, hy3, h⟩ := exceptBind_ok h
            cases exceptPure_ok hy3
            exact rotateRight_bounded hb hgrow h
          · rw [if_neg hslL] at h
            obtain ⟨y3, hy3, h⟩ := exceptBind_ok h
            cases exceptPure_ok hy3
            refine mergeArm_bounded h3 fuel ih s pid v nid (ptrIndex - 1) ptrIndex minItems s'
              hb hmi ?_ hrbn (Or.inr hsmall) h
            intro ln hln
            rw [getNode_det hln hsibL]
            exact Nat.le_of_not_lt hslL
      · rw [if_neg hlg] at h
        obtain ⟨yv, hyv, h⟩ := exceptBind_ok h
        cases exceptPure_ok hyv
        by_cases hrg : ptrIndex < (p.children.length : Int) - 1
        · rw [if_pos hrg] at h
          obtain ⟨v2, hv2, h⟩ := exceptBind_ok h
          obtain ⟨yv2, hyv2, h⟩ := exceptBind_ok h
          cases exceptPure_ok hyv2
          obtain ⟨sibR, hsibR, h⟩ := exceptBind_ok h
          by_cases hslR : sibR.items.length > minItems
          · rw [if_pos hslR] at h
            obtain ⟨y2, hy2, h⟩ := exceptBind_ok h
            cases exceptPure_ok hy2
            exact rotateLeft_bounded hb hgrow h
          · rw [if_neg hslR] at h
            obtain ⟨y2, hy2, h⟩ := exceptBind_ok h
            cases exceptPure_ok hy2
            obtain ⟨tr, htr, h⟩ := exceptBind_ok h
            cases exceptPure_ok htr
            refine mergeArm_bounded h3 fuel ih s pid nid v2 ptrIndex (ptrIndex + 1) minItems s'
              hb hmi hrbn ?_ (Or.inl hsmall) h
            intro rn hrn
            rw [getNode_det hrn hsibR]
            exact Nat.le_of_not_lt hslR
        · rw [if_neg hrg] at h
          obtain ⟨yv2, hyv2, h⟩ := exceptBind_ok h
          cases exceptPure_ok hyv2
          obtain ⟨tl, htl, h⟩ := exceptBind_ok h
          cases exceptPure_ok htl
          obtain ⟨tr, htr, h⟩ := exceptBind_ok h
          cases exceptPure_ok htr
          obtain ⟨p3, hp3, h⟩ := exceptBind_ok h
          obtain ⟨sepItem, hsep, h⟩ := exceptBind_ok h
          replace h : (Except.error .panic : Except Err St) = .ok s' := h
          exact absurd h (by simp)

/-- Go `Delete` preserves the fill bound for orders `m ≥ 3`. -/
theorem Delete_bounded {m : Nat} (h3 : 3 ≤ m) (fuel : Nat) (s : St) (item : Int) (s' : St)
    (hb : Bounded m s) (h : Delete fuel s item = .ok s') : Bounded m s' := by
  have hcont : ∀ (S : St) (affected : NodeId), Bounded m S →
      (do
        let aff ← getNode S affected
        if aff.items.length = 0 ∧ aff.parent ≠ none then rebalance fuel S affected 1
        else pure S) = .ok s' → Bounded m s' := by
    intro S affected hbS hc
    obtain ⟨aff, haff, hc⟩ := exceptBind_ok hc
    by_cases hg : aff.items.length = 0 ∧ aff.parent ≠ none
    · rw [if_pos hg] at hc
      refine rebalance_bounded h3 fuel S affected 1 s' hbS (by omega) ?_ hc
      intro n0 h0
      rw [getNode_det h0 haff]
      have := hg.1
      omega
    · rw [if_neg hg] at hc
      exact (exceptPure_ok hc) ▸ hbS
  unfold Delete at h
  obtain ⟨o, ho, h⟩ := exceptBind_ok h
  match o with
  | none => exact (exceptPure_ok h) ▸ hb
  | some (delId, i) =>
    obtain ⟨del, hdel, h⟩ := exceptBind_ok h
    by_cases hleaf : del.children.length = 0
    · rw [if_pos hleaf] at h
      obtain ⟨items2, hi2, h⟩ := exceptBind_ok h
      obtain ⟨sAff, hsAff, h⟩ := exceptBind_ok h
      cases exceptPure_ok hsAff
      refine hcont _ _ ?_ h
      refine Bounded.set hb delId ?_
      show items2.length ≤ m - 1
      exact le_trans (delI_ok_length hi2) (hb.get hdel)
    · rw [if_neg hleaf] at h
      obtain ⟨ci, hci, h⟩ := exceptBind_ok h
      obtain ⟨maxId, hmax, h⟩ := exceptBind_ok h
      obtain ⟨maxN, hmaxN, h⟩ := exceptBind_ok h
      by_cases hpos : maxN.items.length > 0
      · rw [if_pos hpos] at h
        obtain ⟨lastIt, hlast, h⟩ := exceptBind_ok h
        obtain ⟨del2, hdel2, h⟩ := exceptBind_ok h
        obtain ⟨items2, hi2, h⟩ := exceptBind_ok h
        set S1 := setNode s delId { items := items2, children := del2.children, parent := del2.parent } with hS1
        have hb1 : Bounded m S1 := by
          rw [hS1]
          refine Bounded.set hb delId ?_
          show items2.length ≤ m - 1
          rw [setI_ok_length hi2]
          exact hb.get hdel2
        obtain ⟨maxN2, hmaxN2, h⟩ := exceptBind_ok h
        obtain ⟨items3, hi3, h⟩ := exceptBind_ok h
        obtain ⟨sAff, hsAff, h⟩ := exceptBind_ok h
        cases exceptPure_ok hsAff
        refine hcont _ _ ?_ h
        refine Bounded.set hb1 maxId ?_
        show items3.length ≤ m - 1
        exact le_trans (delI_ok_length hi3) (hb1.get hmaxN2)
      · rw [if_neg hpos] at h
        obtain ⟨sAff, hsAff, h⟩ := exceptBind_ok h
        cases exceptPure_ok hsAff
        exact hcont _ _ hb h

/-- Go `Insert` preserves the fill bound for orders `m ≥ 3`. -/
theorem Insert_bounded {m : Nat} (h3 : 3 ≤ m) (fuel : Nat) (s : St) (item : Int) (s' : St)
    (hb : Bounded m s) (h : Insert fuel s item = .ok s') : Bounded m s' := by
  unfold Insert at h
  obtain ⟨o, ho, h⟩ := exceptBind_ok h
  match o with
  | none => exact (exceptPure_ok h) ▸ hb
  | some leaf => exact split_bounded h3 fuel s leaf item s' hb h

/-- The freshly constructed tree is bounded at any order. -/
theorem New_bounded (m : Nat) : Bounded m (New m) := by
  refine ⟨rfl, fun i n hx => ?_⟩
  cases i with
  | zero =>
    simp only [New, List.get?] at hx
    injection hx with hx
    rw [← hx]
    exact Nat.zero_le _
  | succ k => simp [New, List.get?] at hx

/-- The bulkload loop preserves the fill bound for orders `m ≥ 3`. -/
theorem bulkloadLoop_bounded {m : Nat} (h3 : 3 ≤ m) :
    ∀ (fuel : Nat) (s : St) (maxId : NodeId) (its : List Int) (s' : St),
      Bounded m s → bulkloadLoop fuel s maxId its = .ok s' → Bounded m s' := by
  intro fuel
  induction fuel with
  | zero => intro s maxId its s' _ h; simp [bulkloadLoop] at h
  | succ fuel ih =>
    intro s maxId its s' hb h
    cases its with
    | nil =>
      simp only [bulkloadLoop] at h
      injection h with h2
      exact h2 ▸ hb
    | cons x rest =>
      simp only [bulkloadLoop] at h
      obtain ⟨s1, hs1, h⟩ := exceptBind_ok h
      have hb1 : Bounded m s1 := split_bounded h3 fuel s maxId x s1 hb hs1
      obtain ⟨mx, hmx, h⟩ := exceptBind_ok h
      cases hmp : mx.parent with
      | none =>
        rw [hmp] at h
        obtain ⟨mid2, hmid2, h⟩ := exceptBind_ok h
        cases exceptPure_ok hmid2
        exact ih s1 maxId rest s' hb1 h
      | some pid =>
        rw [hmp] at h
        obtain ⟨p, hp, h⟩ := exceptBind_ok h
        by_cases hchl : p.children.length > 0
        · rw [if_pos hchl] at h
          obtain ⟨last, hlast, h⟩ := exceptBind_ok h
          exact ih s1 last rest s' hb1 h
        · rw [if_neg hchl] at h
          obtain ⟨mid2, hmid2, h⟩ := exceptBind_ok h
          cases exceptPure_ok hmid2
          exact ih s1 maxId rest s' hb1 h

/-- Go `Bulkload` at order `m ≥ 3` produces a bounded tree. -/
theorem Bulkload_bounded {m : Nat} (h3 : 3 ≤ m) (fuel : Nat) (its : List Int) (s' : St)
    (h : Bulkload fuel m its = .ok s') : Bounded m s' :=
  bulkloadLoop_bounded h3 fuel (New m) (New m).root its s' (New_bounded m) h

/-- Go `Merge` of two trees of order `m ≥ 3` produces a bounded tree: the
result is a bulkload of the merged output sequence at the common order. -/
theorem Merge_bounded {m : Nat} (h3 : 3 ≤ m) (fuel : Nat) (sa sb : St) (s' : St)
    (hord : sb.order = m) (h : Merge fuel sa sb = .ok (some s')) : Bounded m s' := by
  unfold Merge at h
  by_cases he : sa.order ≠ sb.order
  · rw [if_pos he] at h
    exact absurd (exceptPure_ok h) (by simp)
  · rw [if_neg he] at h
    obtain ⟨ia, hia, h⟩ := exceptBind_ok h
    obtain ⟨ib, hib, h⟩ := exceptBind_ok h
    obtain ⟨merged, hmg, h⟩ := exceptBind_ok h
    obtain ⟨mt, hmt, h⟩ := exceptBind_ok h
    have hmts : mt = s' := by
      have := exceptPure_ok h
      injection this
    rw [hord] at hmt
    exact hmts ▸ Bulkload_bounded h3 fuel merged mt hmt

/-- Every reachable tree of order `m ≥ 3` is bounded. -/
theorem ReachableM_bounded {m : Nat} {s : St} (h3 : 3 ≤ m) (hr : ReachableM m s) :
    Bounded m s := by
  induction hr with
  | new => exact New_bounded m
  | insert fuel s0 s1 item _ hop ih => exact Insert_bounded h3 fuel s0 item s1 ih hop
  | delete fuel s0 s1 item _ hop ih => exact Delete_bounded h3 fuel s0 item s1 ih hop
  | bulkload fuel its s1 hop => exact Bulkload_bounded h3 fuel its s1 hop
  | merge fuel sa sb s1 _ _ hop iha ihb => exact Merge_bounded h3 fuel sa sb s1 ihb.1 hop

/-- C10: for every tree of order `m ≥ 3` built through the public interface
(`New`, `Insert`, `Delete`, `Bulkload`, `Merge`), every node holds at most
`m - 1` items at every observable state: the split engine fires
exactly when an insertion lifts a node to `m` items and re-splits it, and the
rebalance rotations and node merge never push any node past `m - 1` items. -/
theorem C10_node_fill_bound (m : Nat) (s : St) (h3 : 3 ≤ m) (hr : ReachableM m s) :
    ∀ i n, s.nodes.get? i = some n → n.items.length ≤ m - 1 :=
  (ReachableM_bounded h3 hr).2

/-- Witness for C10 at a concrete input: the order-3 tree reached by
`Insert 5; Insert 7` has a root holding 2 = m - 1 items, within the bound. -/
theorem C10_node_fill_bound_witness :
    ({ items := [5, 7], children := [], parent := none } : node).items.length ≤ 3 - 1 :=
  C10_node_fill_bound 3
    { order := 3, root := 0, nodes := [{ items := [5, 7], children := [], parent := none }] }
    (by decide)
    (ReachableM.insert 9
      { order := 3, root := 0, nodes := [{ items := [5], children := [], parent := none }] }
      { order := 3, root := 0, nodes := [{ items := [5, 7], children := [], parent := none }] }
      7
      (ReachableM.insert 9 (New 3)
        { order := 3, root := 0, nodes := [{ items := [5], children := [], parent := none }] }
        5 ReachableM.new rfl)
      rfl)
    0 { items := [5, 7], children := [], parent := none } rfl

end Btree
